import Mathlib

/-!
Shallow embedding of the log-frame demultiplexer and server-sent-event stream
bridge of `src/backend/index.js` (the `GET /containers/:id/logs` route,
lines 231-301).

Bytes are modelled as `Nat` (a `Buffer` is a `List Nat`); JavaScript strings
obtained by `.toString()` on a payload slice are modelled by their byte
sequences (`List Nat`), i.e. UTF-8 decoding is kept as the identity on the
underlying bytes.  Machine arithmetic: `Buffer.readUInt32BE` returns a value
below `2^32`; all arithmetic here is on `Nat` and the `< 2^32` bound appears
as an explicit hypothesis where a length field must round-trip.
-/

/-- Model of `Buffer.readUInt32BE(off)`: big-endian 32-bit read at byte offset `off`.
Out-of-range indices read as 0; the source only calls this with
`off + 4 ≤ buffer.length`, so the default is never observed there. -/
def readUInt32BE (buf : List Nat) (off : Nat) : Nat :=
  buf.getD off 0 * 16777216 + buf.getD (off + 1) 0 * 65536 +
    buf.getD (off + 2) 0 * 256 + buf.getD (off + 3) 0

/-- The `while (offset + 8 <= buffer.length)` loop of the `data` handler
(index.js lines 265-277), translated with its explicit running `offset`:
read the 32-bit big-endian `length` at `offset + 4`; if the whole frame
(8-byte header plus `length` payload bytes) is inside the buffer, emit the
payload slice `buffer.slice(offset+8, offset+8+length)` and advance,
otherwise stop.  Returns the emitted payloads in order together with
`buffer.slice(offset)`, the new `leftOver`. -/
def demuxLoop (buffer : List Nat) (offset : Nat) : List (List Nat) × List Nat :=
  if offset + 8 ≤ buffer.length then
    let length := readUInt32BE buffer (offset + 4)
    if h2 : offset + 8 + length ≤ buffer.length then
      let text := (buffer.drop (offset + 8)).take length
      let rest := demuxLoop buffer (offset + 8 + length)
      (text :: rest.1, rest.2)
    else ([], buffer.drop offset)
  else ([], buffer.drop offset)
termination_by buffer.length - offset
decreasing_by
  exact Nat.sub_lt_sub_left (by omega) (by omega)

/-- Offset-free restatement of `demuxLoop`: structural recursion on the
buffer itself.  `demuxLoop_eq_demux` proves it equal to the source loop. -/
def demux (buf : List Nat) : List (List Nat) × List Nat :=
  if 8 ≤ buf.length then
    let n := readUInt32BE buf 4
    if h2 : 8 + n ≤ buf.length then
      let rest := demux (buf.drop (8 + n))
      ((buf.drop 8).take n :: rest.1, rest.2)
    else ([], buf)
  else ([], buf)
termination_by buf.length
decreasing_by
  simp only [List.length_drop]
  omega

/-- One firing of `logStream.on('data')` (index.js lines 263-278):
concatenate the retained `leftOver` with the incoming chunk, run the demux
loop from offset 0; first component is the ordered list of emitted payloads,
second is the new `leftOver`. -/
def onData (leftOver chunk : List Nat) : List (List Nat) × List Nat :=
  demuxLoop (leftOver ++ chunk) 0

/-- Feed a sequence of chunks one at a time through `onData`, starting from
the given `leftOver`; collects all emitted payloads in order and returns the
final `leftOver`. -/
def feedChunks (leftOver : List Nat) : List (List Nat) → List (List Nat) × List Nat
  | [] => ([], leftOver)
  | c :: cs =>
      let r := onData leftOver c
      let r2 := feedChunks r.2 cs
      (r.1 ++ r2.1, r2.2)

/-- A frame of the multiplexed log format: 1 stream-selector byte, 3 reserved
bytes, then a 4-byte big-endian length and that many payload bytes. -/
structure Frame where
  selector : Nat
  res1 : Nat
  res2 : Nat
  res3 : Nat
  payload : List Nat
deriving DecidableEq, Repr

/-- Big-endian 4-byte encoding of a 32-bit value. -/
def be32 (n : Nat) : List Nat :=
  [n / 16777216 % 256, n / 65536 % 256, n / 256 % 256, n % 256]

/-- Wire encoding of one frame: 8-byte header followed by the payload. -/
def encodeFrame (f : Frame) : List Nat :=
  f.selector :: f.res1 :: f.res2 :: f.res3 :: (be32 f.payload.length ++ f.payload)

/-- Wire encoding of a frame sequence (a valid frame stream). -/
def encodeFrames : List Frame → List Nat
  | [] => []
  | f :: fs => encodeFrame f ++ encodeFrames fs

/-- Concatenation of a chunk sequence back into one byte stream. -/
def joinChunks : List (List Nat) → List Nat
  | [] => []
  | c :: cs => c ++ joinChunks cs

/-- A buffer holds no fully decodable frame: shorter than a header, or the
length field at bytes 4..7 demands more bytes than are present. -/
def NoFullFrame (l : List Nat) : Prop :=
  l.length < 8 ∨ l.length < 8 + readUInt32BE l 4

instance (l : List Nat) : Decidable (NoFullFrame l) := by
  unfold NoFullFrame; infer_instance

/-! Basic facts about `readUInt32BE` and the two demux presentations -/

theorem readUInt32BE_drop (buf : List Nat) (off i : Nat) :
    readUInt32BE (buf.drop off) i = readUInt32BE buf (off + i) := by
  simp only [readUInt32BE, List.getD_eq_getElem?_getD, List.getElem?_drop]
  ring_nf

theorem readUInt32BE_append_left (s t : List Nat) (off : Nat)
    (h : off + 4 ≤ s.length) :
    readUInt32BE (s ++ t) off = readUInt32BE s off := by
  simp only [readUInt32BE, List.getD_eq_getElem?_getD]
  rw [List.getElem?_append_left (by omega), List.getElem?_append_left (by omega),
    List.getElem?_append_left (by omega), List.getElem?_append_left (by omega)]

/-- The source loop with running offset computes exactly the structural demux
of the buffer suffix from that offset. -/
theorem demuxLoop_eq_demux (buffer : List Nat) (offset : Nat) :
    demuxLoop buffer offset = demux (buffer.drop offset) := by
  induction offset using demuxLoop.induct buffer with
  | case1 offset h len hle ih =>
      have hle' : offset + 8 + readUInt32BE buffer (offset + 4) ≤ buffer.length := hle
      have ih' : demuxLoop buffer (offset + 8 + readUInt32BE buffer (offset + 4)) =
          demux (List.drop (offset + 8 + readUInt32BE buffer (offset + 4)) buffer) := ih
      rw [demuxLoop, demux]
      rw [if_pos h, dif_pos hle']
      rw [if_pos (show 8 ≤ (List.drop offset buffer).length by
        simp only [List.length_drop]; omega)]
      rw [readUInt32BE_drop]
      rw [dif_pos (show 8 + readUInt32BE buffer (offset + 4) ≤
          (List.drop offset buffer).length by simp only [List.length_drop]; omega)]
      rw [List.drop_drop, List.drop_drop]
      rw [show offset + (8 + readUInt32BE buffer (offset + 4)) =
          offset + 8 + readUInt32BE buffer (offset + 4) from by omega]
      rw [ih']
  | case2 offset h len hnle =>
      have hnle' : ¬ offset + 8 + readUInt32BE buffer (offset + 4) ≤ buffer.length := hnle
      rw [demuxLoop, demux]
      rw [if_pos h, dif_neg hnle']
      rw [if_pos (show 8 ≤ (List.drop offset buffer).length by
        simp only [List.length_drop]; omega)]
      rw [readUInt32BE_drop]
      rw [dif_neg (show ¬ 8 + readUInt32BE buffer (offset + 4) ≤
          (List.drop offset buffer).length by simp only [List.length_drop]; omega)]
  | case3 offset h =>
      rw [demuxLoop, demux]
      rw [if_neg h]
      rw [if_neg (show ¬ 8 ≤ (List.drop offset buffer).length by
        simp only [List.length_drop]; omega)]

theorem demuxLoop_zero_eq_demux (buf : List Nat) : demuxLoop buf 0 = demux buf := by
  rw [demuxLoop_eq_demux, List.drop_zero]

theorem onData_eq_demux (l c : List Nat) : onData l c = demux (l ++ c) := by
  rw [onData, demuxLoop_zero_eq_demux]

/-- A buffer with no full frame passes through `demux` untouched. -/
theorem demux_of_noFullFrame (l : List Nat) (h : NoFullFrame l) :
    demux l = ([], l) := by
  rw [demux]
  rcases h with h | h
  · rw [if_neg (by omega)]
  · split
    · rw [dif_neg (by omega)]
    · rfl

/-- The leftover returned by `demux` never contains a full frame: decoding is
applied eagerly until no complete frame remains. -/
theorem noFullFrame_demux_snd (buf : List Nat) : NoFullFrame (demux buf).2 := by
  induction buf using demux.induct with
  | case1 buf h n hle ih =>
      rw [demux, if_pos h, dif_pos hle]
      exact ih
  | case2 buf h n hnle =>
      rw [demux, if_pos h, dif_neg hnle]
      show NoFullFrame buf
      exact Or.inr (by omega)
  | case3 buf h =>
      rw [demux, if_neg h]
      show NoFullFrame buf
      exact Or.inl (by omega)

/-- Decomposition of `demux` over append: the frames of `s` come out first,
then the demux of the leftover of `s` joined with `t`. -/
theorem demux_append (s t : List Nat) :
    demux (s ++ t) =
      ((demux s).1 ++ (demux ((demux s).2 ++ t)).1, (demux ((demux s).2 ++ t)).2) := by
  induction s using demux.induct generalizing t with
  | case1 s h n hle ih =>
      have hle' : 8 + readUInt32BE s 4 ≤ s.length := hle
      have hd : demux s = ((s.drop 8).take (readUInt32BE s 4) :: (demux (s.drop (8 + readUInt32BE s 4))).1,
          (demux (s.drop (8 + readUInt32BE s 4))).2) := by
        rw [demux, if_pos h, dif_pos hle']
      rw [hd]
      have hstep : demux (s ++ t) =
          (((s ++ t).drop 8).take (readUInt32BE s 4) ::
            (demux ((s ++ t).drop (8 + readUInt32BE s 4))).1,
            (demux ((s ++ t).drop (8 + readUInt32BE s 4))).2) := by
        rw [demux]
        rw [if_pos (show 8 ≤ (s ++ t).length by simp only [List.length_append]; omega)]
        rw [readUInt32BE_append_left s t 4 (by omega)]
        rw [dif_pos (show 8 + readUInt32BE s 4 ≤ (s ++ t).length by
          simp only [List.length_append]; omega)]
      rw [hstep]
      rw [List.drop_append_of_le_length (by omega),
        List.drop_append_of_le_length (by omega)]
      rw [List.take_append_of_le_length (by simp only [List.length_drop]; omega)]
      rw [ih]
      simp only [List.cons_append]
  | case2 s h n hnle =>
      have hd : demux s = ([], s) := by
        rw [demux, if_pos h, dif_neg hnle]
      rw [hd]
      rfl
  | case3 s h =>
      have hd : demux s = ([], s) := by rw [demux, if_neg h]
      rw [hd]
      rfl

/-- Feeding chunks one at a time equals one-shot demux of the concatenation,
provided the starting leftover has no full frame. -/
theorem feedChunks_eq_demux (cs : List (List Nat)) (l : List Nat)
    (h : NoFullFrame l) :
    feedChunks l cs = demux (l ++ joinChunks cs) := by
  induction cs generalizing l with
  | nil =>
      rw [feedChunks, joinChunks, List.append_nil, demux_of_noFullFrame l h]
  | cons c cs ih =>
      rw [feedChunks, joinChunks, onData_eq_demux]
      rw [show l ++ (c ++ joinChunks cs) = (l ++ c) ++ joinChunks cs from
        (List.append_assoc l c (joinChunks cs)).symm]
      rw [demux_append (l ++ c) (joinChunks cs)]
      rw [ih (demux (l ++ c)).2 (noFullFrame_demux_snd (l ++ c))]

/-! Decoding a valid frame stream -/

theorem length_encodeFrame (f : Frame) :
    (encodeFrame f).length = 8 + f.payload.length := by
  simp [encodeFrame, be32]
  omega

theorem encodeFrame_append (f : Frame) (rest : List Nat) :
    encodeFrame f ++ rest =
      (f.selector :: f.res1 :: f.res2 :: f.res3 :: be32 f.payload.length) ++
        (f.payload ++ rest) := by
  simp [encodeFrame]

theorem readUInt32BE_at4 (x0 x1 x2 x3 n : Nat) (rest : List Nat)
    (h : n < 2 ^ 32) :
    readUInt32BE (x0 :: x1 :: x2 :: x3 :: (be32 n ++ rest)) 4 = n := by
  simp [readUInt32BE, be32]
  omega

/-- One-shot demux of an encoded frame stream recovers exactly the payloads,
in order, with empty leftover. -/
theorem demux_encodeFrames (fs : List Frame)
    (h : ∀ f ∈ fs, f.payload.length < 2 ^ 32) :
    demux (encodeFrames fs) = (fs.map Frame.payload, []) := by
  induction fs with
  | nil =>
      rw [encodeFrames, demux]
      simp
  | cons f fs ih =>
      have hf : f.payload.length < 2 ^ 32 := h f (by simp)
      have hfs : ∀ g ∈ fs, g.payload.length < 2 ^ 32 := fun g hg => h g (by simp [hg])
      have hlen : (encodeFrame f ++ encodeFrames fs).length =
          8 + f.payload.length + (encodeFrames fs).length := by
        simp [length_encodeFrame]
      have hread : readUInt32BE (encodeFrame f ++ encodeFrames fs) 4 = f.payload.length := by
        rw [show encodeFrame f ++ encodeFrames fs =
          f.selector :: f.res1 :: f.res2 :: f.res3 ::
            (be32 f.payload.length ++ (f.payload ++ encodeFrames fs)) from by simp [encodeFrame]]
        exact readUInt32BE_at4 _ _ _ _ _ _ hf
      rw [encodeFrames, List.map_cons, demux]
      rw [if_pos (by omega : 8 ≤ (encodeFrame f ++ encodeFrames fs).length)]
      rw [hread]
      rw [dif_pos (by omega : 8 + f.payload.length ≤ (encodeFrame f ++ encodeFrames fs).length)]
      rw [encodeFrame_append]
      rw [List.drop_left' (by simp [be32] : (f.selector :: f.res1 :: f.res2 :: f.res3 :: be32 f.payload.length).length = 8)]
      rw [List.take_left' rfl]
      rw [show (f.selector :: f.res1 :: f.res2 :: f.res3 :: be32 f.payload.length) ++
          (f.payload ++ encodeFrames fs) =
          ((f.selector :: f.res1 :: f.res2 :: f.res3 :: be32 f.payload.length) ++ f.payload) ++
            encodeFrames fs from by simp]
      rw [List.drop_left' (by simp [be32]; omega :
        ((f.selector :: f.res1 :: f.res2 :: f.res3 :: be32 f.payload.length) ++ f.payload).length =
          8 + f.payload.length)]
      rw [ih hfs]

/-! The stream bridge.

The `GET /containers/:id/logs` route (index.js lines 231-301) bridges the
demultiplexed payloads onto a server-sent-event response.  Its reachable
callbacks are modelled as an event-driven transition system: one atomic
`step` per callback firing (Node's event loop runs each callback to
completion, so no interleaving happens inside a handler).

* `Ev.data c` — `logStream.on('data')` with chunk `c`;
* `Ev.endEv` — `logStream.on('end')`: `clearInterval(heartbeat)`, write the
  sentinel `text` event, `res.end()`;
* `Ev.errorEv m` — `logStream.on('error')`: `clearInterval(heartbeat)`,
  write an `error` event, `res.end()`;
* `Ev.closeEv` — `req.on('close')` (client disconnect): `clearInterval`,
  `logStream.destroy()`, nothing written;
* `Ev.tick` — a potential firing of the `setInterval` heartbeat; it writes
  the comment only while the interval is uncancelled (`heartbeatActive`),
  which is exactly `setInterval`/`clearInterval` semantics.

`clearInterval` on an already-cleared timer and `destroy()` on an already
destroyed stream are no-ops in Node; they are modelled by the idempotent
flag writes below. -/

/-- JSON payload of one `data:` line: `{text: ...}` (payload bytes) or
`{error: ...}` (message string). -/
inductive SSE where
  | text (bytes : List Nat)
  | error (msg : String)
deriving DecidableEq, Repr

/-- One observable write on the response. -/
inductive Out where
  | event (d : SSE)
  | comment
  | endRes
deriving DecidableEq, Repr

/-- Input events driving one bridge instance. -/
inductive Ev where
  | data (chunk : List Nat)
  | endEv
  | errorEv (msg : String)
  | closeEv
  | tick
deriving DecidableEq, Repr

/-- Mutable state of one bridge instance: the demux `leftOver` buffer, the
heartbeat-interval flag, whether `res.end()` has run, and whether
`logStream.destroy()` has run. -/
structure BridgeState where
  leftOver : List Nat
  heartbeatActive : Bool
  resEnded : Bool
  destroyed : Bool
deriving DecidableEq, Repr

/-- State when streaming begins: empty leftover (`Buffer.alloc(0)`),
heartbeat interval just started. -/
def initState : BridgeState :=
  { leftOver := [], heartbeatActive := true, resEnded := false, destroyed := false }

/-- Bytes of the graceful-end sentinel string
`"\n--- Container stream ended ---\n"` (all ASCII, so UTF-8 bytes equal
code points). -/
def endSentinel : List Nat :=
  [10, 45, 45, 45, 32, 67, 111, 110, 116, 97, 105, 110, 101, 114, 32,
   115, 116, 114, 101, 97, 109, 32, 101, 110, 100, 101, 100, 32, 45, 45, 45, 10]

example : endSentinel.length = 32 := by decide

/-- One callback firing: the next state and the writes it performs,
in order. -/
def step (s : BridgeState) : Ev → BridgeState × List Out
  | .data c =>
      let r := demuxLoop (s.leftOver ++ c) 0
      ({ s with leftOver := r.2 }, r.1.map (fun p => Out.event (SSE.text p)))
  | .endEv =>
      ({ s with heartbeatActive := false, resEnded := true },
       [Out.event (SSE.text endSentinel), Out.endRes])
  | .errorEv m =>
      ({ s with heartbeatActive := false, resEnded := true },
       [Out.event (SSE.error m), Out.endRes])
  | .closeEv =>
      ({ s with heartbeatActive := false, destroyed := true }, [])
  | .tick =>
      (s, if s.heartbeatActive then [Out.comment] else [])

/-- Run a whole event trace, concatenating the writes in order. -/
def run (s : BridgeState) : List Ev → BridgeState × List Out
  | [] => (s, [])
  | e :: es =>
      let r := step s e
      let r2 := run r.1 es
      (r2.1, r.2 ++ r2.2)

/-- Upstream (log-stream) events. -/
def isUpstream : Ev → Bool
  | .data _ => true
  | .endEv => true
  | .errorEv _ => true
  | _ => false

/-- Terminal upstream events. -/
def isUpstreamTerminal : Ev → Bool
  | .endEv => true
  | .errorEv _ => true
  | _ => false

/-- Admissible trace: the upstream stream delivers at most one terminal
event (`end` or `error`) and nothing further after it — the stream contract
of the underlying transport.  Client `close` and timer ticks are
unrestricted. -/
def admissible : List Ev → Bool
  | [] => true
  | e :: es =>
      (!isUpstreamTerminal e || es.all (fun x => !isUpstream x)) && admissible es

/-- Test for the `res.end()` marker. -/
def isEndRes : Out → Bool
  | .endRes => true
  | _ => false

/-- Holds when nothing at all is written after the (first) `res.end()`. -/
def noWriteAfterEnd : List Out → Bool
  | [] => true
  | .endRes :: rest => rest.isEmpty
  | _ :: rest => noWriteAfterEnd rest

/-- An output carrying the `error` key. -/
def hasErrorKey : Out → Bool
  | .event (.error _) => true
  | _ => false

/-- Model of the whole route handler: the `container.inspect()` guard
(lines 235-240) runs before any header is flushed or timer started; only
when it succeeds does the bridge run. -/
structure LogsResponse where
  status : Nat
  jsonBody : Option String
  headersFlushed : Bool
  heartbeatStarted : Bool
  streamed : List Out
deriving DecidableEq, Repr

def logsHandler (containerExists : Bool) (events : List Ev) : LogsResponse :=
  if containerExists then
    { status := 200, jsonBody := none, headersFlushed := true,
      heartbeatStarted := true, streamed := (run initState events).2 }
  else
    { status := 404, jsonBody := some "Container not found",
      headersFlushed := false, heartbeatStarted := false, streamed := [] }

/-! Helper lemmas about `run` and the output predicates -/

theorem run_append (s : BridgeState) (t1 t2 : List Ev) :
    run s (t1 ++ t2) =
      ((run (run s t1).1 t2).1, (run s t1).2 ++ (run (run s t1).1 t2).2) := by
  induction t1 generalizing s with
  | nil => simp [run]
  | cons e es ih =>
      rw [List.cons_append, run, run, ih]
      simp [List.append_assoc]

theorem noWriteAfterEnd_append (o r : List Out)
    (h : ∀ x ∈ o, isEndRes x = false) :
    noWriteAfterEnd (o ++ r) = noWriteAfterEnd r := by
  induction o with
  | nil => rfl
  | cons x o ih =>
      have hx := h x (by simp)
      cases x with
      | event d =>
          rw [List.cons_append]
          rw [show noWriteAfterEnd (Out.event d :: (o ++ r)) = noWriteAfterEnd (o ++ r) from rfl]
          exact ih fun y hy => h y (by simp [hy])
      | comment =>
          rw [List.cons_append]
          rw [show noWriteAfterEnd (Out.comment :: (o ++ r)) = noWriteAfterEnd (o ++ r) from rfl]
          exact ih fun y hy => h y (by simp [hy])
      | endRes => simp [isEndRes] at hx

theorem countP_isEndRes_le_one (l : List Out) (h : noWriteAfterEnd l = true) :
    l.countP isEndRes ≤ 1 := by
  induction l with
  | nil => simp
  | cons x l ih =>
      cases x with
      | endRes =>
          rw [show noWriteAfterEnd (Out.endRes :: l) = l.isEmpty from rfl] at h
          rw [List.isEmpty_iff.mp h]
          simp [List.countP, List.countP.go, isEndRes]
      | event d =>
          rw [show noWriteAfterEnd (Out.event d :: l) = noWriteAfterEnd l from rfl] at h
          rw [List.countP_cons_of_neg _ _ (by simp [isEndRes])]
          exact ih h
      | comment =>
          rw [show noWriteAfterEnd (Out.comment :: l) = noWriteAfterEnd l from rfl] at h
          rw [List.countP_cons_of_neg _ _ (by simp [isEndRes])]
          exact ih h

/-- After the heartbeat is cancelled, a trace with no upstream events
writes nothing at all. -/
theorem run_quiet (t : List Ev) (s : BridgeState)
    (hs : s.heartbeatActive = false)
    (ht : ∀ e ∈ t, isUpstream e = false) :
    (run s t).2 = [] := by
  induction t generalizing s with
  | nil => rfl
  | cons e es ih =>
      cases e with
      | data c => exact absurd (ht (Ev.data c) (by simp)) (by simp [isUpstream])
      | endEv => exact absurd (ht Ev.endEv (by simp)) (by simp [isUpstream])
      | errorEv m => exact absurd (ht (Ev.errorEv m) (by simp)) (by simp [isUpstream])
      | closeEv =>
          rw [run]
          rw [ih _ rfl fun e he => ht e (by simp [he])]
          rfl
      | tick =>
          rw [run]
          show (if s.heartbeatActive then [Out.comment] else []) ++ (run s es).2 = []
          rw [hs, if_neg (by simp)]
          rw [ih s hs fun e he => ht e (by simp [he])]
          rfl

/-- On every admissible trace, nothing is written after `res.end()`. -/
theorem noWriteAfterEnd_run (t : List Ev) (s : BridgeState)
    (h : admissible t = true) :
    noWriteAfterEnd (run s t).2 = true := by
  induction t generalizing s with
  | nil => rfl
  | cons e es ih =>
      rw [admissible, Bool.and_eq_true] at h
      obtain ⟨h1, h2⟩ := h
      cases e with
      | data c =>
          rw [run]
          rw [noWriteAfterEnd_append _ _ (by
            intro x hx
            show isEndRes x = false
            simp only [step, List.mem_map] at hx
            obtain ⟨p, _, hp⟩ := hx
            rw [← hp]
            rfl)]
          exact ih _ h2
      | tick =>
          rw [run]
          rw [noWriteAfterEnd_append _ _ (by
            intro x hx
            show isEndRes x = false
            by_cases hb : s.heartbeatActive
            · simp [step, hb] at hx
              simp [hx, isEndRes]
            · simp [step, hb] at hx)]
          exact ih _ h2
      | closeEv =>
          rw [run]
          rw [noWriteAfterEnd_append _ _ (by intro x hx; simp [step] at hx)]
          exact ih _ h2
      | endEv =>
          have hall : ∀ e2 ∈ es, isUpstream e2 = false := by
            simp only [isUpstreamTerminal, Bool.not_true, Bool.false_or,
              List.all_eq_true] at h1
            intro e2 he2
            have := h1 e2 he2
            simpa using this
          rw [run]
          rw [run_quiet es _ rfl hall]
          rfl
      | errorEv m =>
          have hall : ∀ e2 ∈ es, isUpstream e2 = false := by
            simp only [isUpstreamTerminal, Bool.not_true, Bool.false_or,
              List.all_eq_true] at h1
            intro e2 he2
            have := h1 e2 he2
            simpa using this
          rw [run]
          rw [run_quiet es _ rfl hall]
          rfl

example : demuxLoop [1,0,0,0,0,0,0,2,104,105] 0 = ([[104,105]], []) := by
  simp [demuxLoop, readUInt32BE]
example : demuxLoop [1,0,0,0,0,0,0,2,104] 0 = ([], [1,0,0,0,0,0,0,2,104]) := by
  simp [demuxLoop, readUInt32BE]
example : feedChunks [] [[1,0,0,0],[0,0,0,2,104],[105,7]] = ([[104,105]], [7]) := by
  simp [feedChunks, onData, demuxLoop, readUInt32BE]

/-- A non-terminal event never makes the handler call `res.end()`. -/
theorem step_no_endRes (s : BridgeState) (e : Ev)
    (he : isUpstreamTerminal e = false) :
    (step s e).2.countP isEndRes = 0 := by
  cases e with
  | data c =>
      refine List.countP_eq_zero.mpr ?_
      intro x hx
      obtain ⟨p, _, hpe⟩ := List.mem_map.mp hx
      rw [← hpe]
      simp [isEndRes]
  | endEv => simp [isUpstreamTerminal] at he
  | errorEv m => simp [isUpstreamTerminal] at he
  | closeEv => rfl
  | tick =>
      show (if s.heartbeatActive then [Out.comment] else []).countP isEndRes = 0
      by_cases hb : s.heartbeatActive
      · rw [if_pos hb]
        rfl
      · rw [if_neg hb]
        rfl

/-- A trace with no upstream terminal event produces no `res.end()`. -/
theorem run_countP_zero (t : List Ev) (s : BridgeState)
    (ht : ∀ e ∈ t, isUpstreamTerminal e = false) :
    (run s t).2.countP isEndRes = 0 := by
  induction t generalizing s with
  | nil => rfl
  | cons e es ih =>
      show ((step s e).2 ++ (run (step s e).1 es).2).countP isEndRes = 0
      rw [List.countP_append, step_no_endRes s e (ht e (by simp)),
        ih _ fun x hx => ht x (by simp [hx])]

/-- An admissible trace containing an upstream terminal event produces
exactly one `res.end()`. -/
theorem run_countP_one (t : List Ev) :
    ∀ s : BridgeState, admissible t = true →
      (∃ e ∈ t, isUpstreamTerminal e = true) →
      (run s t).2.countP isEndRes = 1 := by
  induction t with
  | nil =>
      intro s h hterm
      obtain ⟨e, he, _⟩ := hterm
      simp at he
  | cons e es ih =>
      intro s h hterm
      rw [admissible, Bool.and_eq_true] at h
      obtain ⟨h1, h2⟩ := h
      show ((step s e).2 ++ (run (step s e).1 es).2).countP isEndRes = 1
      rw [List.countP_append]
      by_cases he : isUpstreamTerminal e = true
      · have hall : ∀ e2 ∈ es, isUpstream e2 = false := by
          simp only [he, Bool.not_true, Bool.false_or, List.all_eq_true] at h1
          intro e2 he2
          simpa using h1 e2 he2
        cases e with
        | endEv =>
            rw [run_quiet es _ rfl hall]
            rfl
        | errorEv m =>
            rw [run_quiet es _ rfl hall]
            rfl
        | data c => simp [isUpstreamTerminal] at he
        | closeEv => simp [isUpstreamTerminal] at he
        | tick => simp [isUpstreamTerminal] at he
      · have he' : isUpstreamTerminal e = false := by simpa using he
        have hterm2 : ∃ e2 ∈ es, isUpstreamTerminal e2 = true := by
          obtain ⟨e2, he2, ht2⟩ := hterm
          rcases List.mem_cons.mp he2 with hh | hmem
          · rw [hh] at ht2
            rw [ht2] at he'
            cases he'
          · exact ⟨e2, hmem, ht2⟩
        rw [step_no_endRes s e he', ih _ h2 hterm2]

/-! The claims -/

/-- C1 (chunk-boundary invariance of the frame demultiplexer): for every
valid frame stream — the encoding of a list of well-formed frames — and
every partition of its bytes into chunks, feeding the chunks one at a time
through the `data` handler starting from an empty leftover emits exactly the
frames' payloads, in order, and consumes every byte (empty final leftover):
no payload from a partial frame, no byte dropped or reordered, independent
of the chunk boundaries. -/
theorem c1_chunk_boundary_invariance (fs : List Frame) (chunks : List (List Nat))
    (hwf : ∀ f ∈ fs, f.payload.length < 2 ^ 32)
    (hsplit : joinChunks chunks = encodeFrames fs) :
    feedChunks [] chunks = (fs.map Frame.payload, []) := by
  rw [feedChunks_eq_demux chunks [] (Or.inl (by simp)), List.nil_append, hsplit,
    demux_encodeFrames fs hwf]

/-- Witness for C1 at a concrete stream split across three chunks, one of
which cuts the header after 3 bytes. -/
theorem c1_witness :
    feedChunks [] [[1,0,0],[0,0,0,0,2,104],[105]] = ([[104,105]], []) :=
  c1_chunk_boundary_invariance [⟨1,0,0,0,[104,105]⟩] [[1,0,0],[0,0,0,0,2,104],[105]]
    (by decide) (by decide)

/-- C2 (terminal-event exclusivity of the stream bridge): on any admissible
event trace (the upstream stream emits at most one terminal `end`/`error`
event and nothing after it), the response receives at most one terminal
emission — `res.end()` runs at most once — and nothing at all, in particular
no keep-alive comment, is written after it.  Moreover the terminal emission
happens exactly once when the upstream delivers a terminal event, and not at
all otherwise — in particular a client disconnect alone (silent cancel)
emits nothing terminal. -/
theorem c2_terminal_exclusivity (t : List Ev) (h : admissible t = true) :
    (run initState t).2.countP isEndRes ≤ 1 ∧
    noWriteAfterEnd (run initState t).2 = true ∧
    ((∃ e ∈ t, isUpstreamTerminal e = true) →
      (run initState t).2.countP isEndRes = 1) ∧
    ((∀ e ∈ t, isUpstreamTerminal e = false) →
      (run initState t).2.countP isEndRes = 0) := by
  have hn := noWriteAfterEnd_run t initState h
  exact ⟨countP_isEndRes_le_one _ hn, hn,
    fun hterm => run_countP_one t initState h hterm,
    fun hnone => run_countP_zero t initState hnone⟩

/-- Witness for C2 on a concrete admissible trace containing data, heartbeat
ticks on both sides of the terminal event, and a late client disconnect. -/
theorem c2_witness :
    (run initState [Ev.tick, Ev.data [1,0,0,0,0,0,0,1,65], Ev.endEv, Ev.tick,
        Ev.closeEv]).2.countP isEndRes ≤ 1 ∧
    noWriteAfterEnd (run initState [Ev.tick, Ev.data [1,0,0,0,0,0,0,1,65],
        Ev.endEv, Ev.tick, Ev.closeEv]).2 = true ∧
    ((∃ e ∈ [Ev.tick, Ev.data [1,0,0,0,0,0,0,1,65], Ev.endEv, Ev.tick,
        Ev.closeEv], isUpstreamTerminal e = true) →
      (run initState [Ev.tick, Ev.data [1,0,0,0,0,0,0,1,65], Ev.endEv, Ev.tick,
        Ev.closeEv]).2.countP isEndRes = 1) ∧
    ((∀ e ∈ [Ev.tick, Ev.data [1,0,0,0,0,0,0,1,65], Ev.endEv, Ev.tick,
        Ev.closeEv], isUpstreamTerminal e = false) →
      (run initState [Ev.tick, Ev.data [1,0,0,0,0,0,0,1,65], Ev.endEv, Ev.tick,
        Ev.closeEv]).2.countP isEndRes = 0) :=
  c2_terminal_exclusivity
    [Ev.tick, Ev.data [1,0,0,0,0,0,0,1,65], Ev.endEv, Ev.tick, Ev.closeEv]
    (by decide)

/-- C3 counterexample: the two chunks exactly as the claim writes them —
`header(sel=1,len=5) ++ "hello"[0:3]` (i.e. `"hel"`) and then
`"llo" ++ header(sel=1,len=2) ++ "!!"` — do NOT decode to
`["hello", "!!"]`: the first frame's 5 payload bytes are `"helll"`, and the
next 8 bytes `"o" ++ header-prefix` parse as a header with length field 0,
so the code emits `["helll", ""]` and retains `[2, 33, 33]`. -/
theorem c3_counterexample :
    (feedChunks [] [[1,0,0,0,0,0,0,5,104,101,108],
        [108,108,111,1,0,0,0,0,0,0,2,33,33]]).1 ≠
      [[104,101,108,108,111], [33,33]] := by
  simp [feedChunks, onData, demuxLoop, readUInt32BE]

/-- C3 amended: with the split placed so the two chunks really partition
`header(sel=1,len=5) ++ "hello" ++ header(sel=1,len=2) ++ "!!"` — chunk 1
carries `"hello"[0:2]` = `"he"` and chunk 2 starts with `"llo"` — the
demultiplexer produces exactly the payload sequence `["hello", "!!"]`. -/
theorem c3_amended_scenario :
    feedChunks [] [[1,0,0,0,0,0,0,5,104,101],
        [108,108,111,1,0,0,0,0,0,0,2,33,33]] =
      ([[104,101,108,108,111], [33,33]], []) := by
  simp [feedChunks, onData, demuxLoop, readUInt32BE]

/-- C4 counterexample: the leftover-buffer invariant as claimed — with the
length read from bytes 0..3 of the leftover — fails after the single chunk
`[0,0,0,0,255,0,0,0]`: the code keeps all 8 bytes (the length field it
actually reads, bytes 4..7, is huge), yet bytes 0..3 read 0 and
`8 + 0 > 8` is false. -/
theorem c4_counterexample :
    ¬ ((feedChunks [] [[0,0,0,0,255,0,0,0]]).2.length < 8 ∨
       (feedChunks [] [[0,0,0,0,255,0,0,0]]).2.length <
         8 + readUInt32BE (feedChunks [] [[0,0,0,0,255,0,0,0]]).2 0) := by
  simp [feedChunks, onData, demuxLoop, readUInt32BE]

/-- C4 amended (leftover-buffer invariant, with the length field at bytes
4..7 where the code reads it): after processing any sequence of chunks from
an empty start, the retained leftover satisfies `leftover.length < 8` or
`8 + readUInt32BE leftover 4 > leftover.length` — the leftover never
contains a fully decodable frame. -/
theorem c4_leftover_invariant (chunks : List (List Nat)) :
    (feedChunks [] chunks).2.length < 8 ∨
    (feedChunks [] chunks).2.length <
      8 + readUInt32BE (feedChunks [] chunks).2 4 := by
  rw [feedChunks_eq_demux chunks [] (Or.inl (by simp)), List.nil_append]
  exact noFullFrame_demux_snd (joinChunks chunks)

/-- C5 (zero-length frame handling): a frame whose length field decodes to 0
(bytes 4..7 of its header all zero, any selector/reserved bytes) makes the
demux loop emit exactly one payload, the empty one, and advance exactly 8
bytes, so the rest of the buffer is decoded as if the frame were absent. -/
theorem c5_zero_length_frame (b0 b1 b2 b3 : Nat) (rest : List Nat) :
    demuxLoop (b0 :: b1 :: b2 :: b3 :: 0 :: 0 :: 0 :: 0 :: rest) 0 =
      ([] :: (demuxLoop rest 0).1, (demuxLoop rest 0).2) := by
  rw [demuxLoop_zero_eq_demux, demuxLoop_zero_eq_demux]
  have hr : readUInt32BE (b0 :: b1 :: b2 :: b3 :: 0 :: 0 :: 0 :: 0 :: rest) 4 = 0 := by
    simp [readUInt32BE]
  rw [demux]
  rw [if_pos (by simp)]
  rw [hr]
  rw [dif_pos (by simp)]
  simp

/-- C6 (end-of-stream leftover discard): whatever events have arrived before
(hence whatever `K` leftover bytes the demultiplexer holds), a subsequent
upstream `end` appends to the response exactly the sentinel `text` event and
`res.end()` — no payload built from the leftover bytes and no `error`
event — and leaves the leftover buffer untouched (silently dropped with the
bridge, never reported). -/
theorem c6_end_discards_leftover (pre : List Ev) :
    (run initState (pre ++ [Ev.endEv])).2 =
      (run initState pre).2 ++ [Out.event (SSE.text endSentinel), Out.endRes] ∧
    (run initState (pre ++ [Ev.endEv])).1.leftOver =
      (run initState pre).1.leftOver := by
  rw [run_append]
  constructor
  · rfl
  · rfl

/-- C7 (upstream-not-found is an immediate structured failure): when the
container does not exist, the handler answers 404 with the JSON error body
before any streaming starts — headers are never flushed, the keep-alive
interval is never started, and no event of any kind is written — for every
possible subsequent event trace. -/
theorem c7_not_found_immediate (events : List Ev) :
    logsHandler false events =
      { status := 404, jsonBody := some "Container not found",
        headersFlushed := false, heartbeatStarted := false, streamed := [] } := rfl

/-- C8 (cancel is idempotent and safe after termination): the client-close
path writes nothing; running it a second time from the state it produced
changes nothing and writes nothing (the timer and the stream handle are not
released twice — the flag writes are no-ops); and invoking it after a
terminal `end` or `error` also writes nothing. -/
theorem c8_cancel_idempotent (s : BridgeState) (m : String) :
    (step s Ev.closeEv).2 = [] ∧
    step (step s Ev.closeEv).1 Ev.closeEv = ((step s Ev.closeEv).1, []) ∧
    (step (step s Ev.endEv).1 Ev.closeEv).2 = [] ∧
    (step (step s (Ev.errorEv m)).1 Ev.closeEv).2 = [] :=
  ⟨rfl, rfl, rfl, rfl⟩

/-- C9 (selector and reserved bytes are ignored): two valid frame streams
whose frames carry the same payloads — hence are byte-for-byte identical
except in the first four bytes of each 8-byte header — decode to identical
results; the demultiplexer output carries no trace of the stream selector. -/
theorem c9_selector_ignored (fs gs : List Frame)
    (hwf : ∀ f ∈ fs, f.payload.length < 2 ^ 32)
    (hp : fs.map Frame.payload = gs.map Frame.payload) :
    demuxLoop (encodeFrames fs) 0 = demuxLoop (encodeFrames gs) 0 := by
  have hwg : ∀ g ∈ gs, g.payload.length < 2 ^ 32 := by
    intro g hg
    have hmem : g.payload ∈ gs.map Frame.payload := List.mem_map_of_mem _ hg
    rw [← hp] at hmem
    obtain ⟨f, hf, hfe⟩ := List.mem_map.mp hmem
    rw [← hfe]
    exact hwf f hf
  rw [demuxLoop_zero_eq_demux, demuxLoop_zero_eq_demux,
    demux_encodeFrames fs hwf, demux_encodeFrames gs hwg, hp]

/-- Witness for C9: same payload under different selector and reserved
bytes. -/
theorem c9_witness :
    demuxLoop (encodeFrames [⟨1,0,0,0,[104]⟩]) 0 =
      demuxLoop (encodeFrames [⟨2,9,9,9,[104]⟩]) 0 :=
  c9_selector_ignored [⟨1,0,0,0,[104]⟩] [⟨2,9,9,9,[104]⟩] (by decide) (by decide)

/-- C10 (the graceful-end terminal event is indistinguishable from log
data): upstream `end` is reported under the same `text` key as ordinary
payloads, with the fixed sentinel bytes; a log frame whose payload happens
to be those bytes produces the byte-identical outbound event; and the
`error` key is never produced by the data, tick, close or end paths — only
by the upstream-error terminal event. -/
theorem c10_end_event_uses_text_key (s : BridgeState) (m : String) (c : List Nat) :
    (step s Ev.endEv).2 = [Out.event (SSE.text endSentinel), Out.endRes] ∧
    (step s (Ev.errorEv m)).2 = [Out.event (SSE.error m), Out.endRes] ∧
    (step initState (Ev.data (encodeFrame ⟨1, 0, 0, 0, endSentinel⟩))).2 =
      [Out.event (SSE.text endSentinel)] ∧
    (step s (Ev.data c)).2.all (fun o => !hasErrorKey o) = true ∧
    (step s Ev.tick).2.all (fun o => !hasErrorKey o) = true ∧
    (step s Ev.closeEv).2.all (fun o => !hasErrorKey o) = true ∧
    (step s Ev.endEv).2.all (fun o => !hasErrorKey o) = true := by
  refine ⟨rfl, rfl, ?_, ?_, ?_, rfl, rfl⟩
  · show (demuxLoop (initState.leftOver ++ encodeFrame ⟨1, 0, 0, 0, endSentinel⟩) 0).1.map
        (fun p => Out.event (SSE.text p)) = [Out.event (SSE.text endSentinel)]
    have henc : initState.leftOver ++ encodeFrame ⟨1, 0, 0, 0, endSentinel⟩ =
        encodeFrames [⟨1, 0, 0, 0, endSentinel⟩] := by
      show [] ++ encodeFrame ⟨1, 0, 0, 0, endSentinel⟩ = encodeFrames [⟨1, 0, 0, 0, endSentinel⟩]
      rw [List.nil_append, encodeFrames, encodeFrames, List.append_nil]
    rw [henc, demuxLoop_zero_eq_demux,
      demux_encodeFrames [⟨1, 0, 0, 0, endSentinel⟩] (by decide)]
    rfl
  · show ((demuxLoop (s.leftOver ++ c) 0).1.map (fun p => Out.event (SSE.text p))).all
        (fun o => !hasErrorKey o) = true
    refine List.all_eq_true.mpr ?_
    intro o ho
    obtain ⟨p, _, hpe⟩ := List.mem_map.mp ho
    rw [← hpe]
    rfl
  · show (if s.heartbeatActive then [Out.comment] else []).all (fun o => !hasErrorKey o) = true
    by_cases hb : s.heartbeatActive
    · rw [if_pos hb]
      rfl
    · rw [if_neg hb]
      rfl
